import Mathlib

/-!
Shallow embedding of the core pipeline of `src/scraper.py`:
the Ranker (`_score`) and the Decision Aggregator (`analyze_big_small`
with its inner `vote` classifier).  Python floats are modelled as real
numbers; Python strings as lists of characters; Python `None` as
`Option.none`.  Python truthiness of floats and the `x or d` idiom are
modelled explicitly (`pyOrR`), since `0.0` is falsy in Python.
-/

namespace Hgzy

/-- Python strings are modelled as lists of characters. -/
abbrev Str := List Char

/-- Embedding of Python `str.lower()` (ASCII case folding, which is all the
classifier's inputs use). -/
def lowerStr (s : Str) : Str := s.map Char.toLower

/-- True when the first list is an initial segment of the second
(character-by-character equality). -/
def leadEq : Str → Str → Bool
  | [], _ => true
  | _ :: _, [] => false
  | a :: as, b :: bs => a == b && leadEq as bs

/-- Embedding of Python substring containment: `needle in hay`. -/
def hasSub (needle : Str) : Str → Bool
  | [] => needle.isEmpty
  | c :: t => leadEq needle (c :: t) || hasSub needle t

/-- Characters stripped by Python `str.strip()`. -/
def pySpace (c : Char) : Bool :=
  c == ' ' || c == '\t' || c == '\n' || c == '\r' || c == '\x0b' || c == '\x0c'

/-- Embedding of Python `str.strip()`. -/
def stripStr (s : Str) : Str :=
  ((s.dropWhile pySpace).reverse.dropWhile pySpace).reverse

/-- Embedding of the Python expression `x or d` for an optional float `x`:
`None` and `0.0` are falsy, any other float is truthy. -/
noncomputable def pyOrR (x : Option ℝ) (d : ℝ) : ℝ :=
  match x with
  | none => d
  | some v => if v = 0 then d else v

/-- Embedding of the Python expression `v if v else None` for a float `v`. -/
noncomputable def optFloat (v : ℝ) : Option ℝ :=
  if v = 0 then none else some v

/-- CandidateRecord as produced by the Extractor (`_extract`): the input
type of the Ranker. -/
structure Candidate where
  name : Str
  hitRate : Option ℝ
  trade : Option ℝ
  plan : Str
  rawText : Str

/-- ScoredRecord as produced by the Ranker (`_score`). -/
structure Scored where
  name : Str
  hit_rate : Option ℝ
  trade : Option ℝ
  plan : Str
  score : ℝ

/-- Per-record body of the loop in `_score`: builds one ScoredRecord from a
CandidateRecord, including the scoring formula
`score = hit * (1.0 + math.log1p(max(trd, 0.0)))`. -/
noncomputable def scoreRecord (r : Candidate) : Scored :=
  let hit := pyOrR r.hitRate 0
  let trd := pyOrR r.trade 0
  { name := stripStr r.name
    hit_rate := optFloat hit
    trade := optFloat trd
    plan := stripStr r.plan
    score := hit * (1 + Real.log (1 + max trd 0)) }

/-- Sort key of `_score`: the Python tuple
`(x.score, x.hit_rate or -1.0, x.trade or -1.0)`. -/
noncomputable def sortKey (x : Scored) : ℝ × ℝ × ℝ :=
  (x.score, pyOrR x.hit_rate (-1), pyOrR x.trade (-1))

/-- Lexicographic non-strict order on real triples, as Python compares the
sort-key tuples. -/
def lex3 (p q : ℝ × ℝ × ℝ) : Prop :=
  p.1 < q.1 ∨ (p.1 = q.1 ∧ (p.2.1 < q.2.1 ∨ (p.2.1 = q.2.1 ∧ p.2.2 ≤ q.2.2)))

/-- Comparator used to model `out.sort(key=..., reverse=True)`: record `a`
may precede record `b` when `a`'s key is lexicographically at least `b`'s. -/
noncomputable def keyLe (a b : Scored) : Bool :=
  @decide (lex3 (sortKey b) (sortKey a)) (Classical.propDecidable _)

/-- Embedding of `_score`: map each candidate through the scoring formula,
sort descending by `(score, hit_rate or -1.0, trade or -1.0)`, and keep the
first 20 records. -/
noncomputable def scoreItems (items : List Candidate) : List Scored :=
  ((items.map scoreRecord).mergeSort keyLe).take 20

/-- Directional side of a vote: the Python strings "Big" / "Small". -/
inductive Side where
  | Big
  | Small
  deriving DecidableEq, BEq

/-- Word constants used by the classifier. -/
def bigW : Str := "big".data

/-- Word constant "small". -/
def smallW : Str := "small".data

/-- Word constant "high". -/
def highW : Str := "high".data

/-- Word constant "up". -/
def upW : Str := "up".data

/-- Word constant "low". -/
def lowW : Str := "low".data

/-- Word constant "down". -/
def downW : Str := "down".data

/-- Digit set of the Big digit rule: `list("6789")`. -/
def digitsHi : Str := "6789".data

/-- Digit set of the Small digit rule: `list("012345")`. -/
def digitsLo : Str := "012345".data

/-- Embedding of the inner `vote` classifier of `analyze_big_small`: the
first-match-wins ladder over the lower-cased plan text. -/
def vote (plan : Str) : Option Side :=
  let t := lowerStr plan
  if hasSub bigW t && !hasSub smallW t then some Side.Big
  else if hasSub smallW t && !hasSub bigW t then some Side.Small
  else if digitsHi.any (fun c => t.contains c) && !(digitsLo.any (fun c => t.contains c)) then
    some Side.Big
  else if digitsLo.any (fun c => t.contains c) && !(digitsHi.any (fun c => t.contains c)) then
    some Side.Small
  else if hasSub highW t || hasSub upW t then some Side.Big
  else if hasSub lowW t || hasSub downW t then some Side.Small
  else none

/-- Vote record: `{"side": v, "weight": w, "name": ..., "plan": ...}`. -/
structure VoteRec where
  side : Side
  weight : ℝ
  name : Str
  plan : Str

/-- Weight formula of `analyze_big_small`:
`(max(hit_rate or 0.0, 0.0) ** 1.15) * (1.0 + math.log1p(max(trade or 0.0, 0.0)))`. -/
noncomputable def voteWeight (hr trd : Option ℝ) : ℝ :=
  (max (pyOrR hr 0) 0) ^ (1.15 : ℝ) * (1 + Real.log (1 + max (pyOrR trd 0) 0))

/-- Vote-collection loop of `analyze_big_small`: records whose plan fails to
classify contribute nothing; the rest contribute one weighted vote, in input
order. -/
noncomputable def mkVotes (items : List Scored) : List VoteRec :=
  items.filterMap fun it =>
    match vote it.plan with
    | none => none
    | some s => some { side := s, weight := voteWeight it.hit_rate it.trade,
                       name := it.name, plan := it.plan }

/-- Summed weight of the Big votes. -/
noncomputable def bigScore (items : List Scored) : ℝ :=
  (((mkVotes items).filter fun v => v.side == Side.Big).map fun v => v.weight).sum

/-- Summed weight of the Small votes. -/
noncomputable def smallScore (items : List Scored) : ℝ :=
  (((mkVotes items).filter fun v => v.side == Side.Small).map fun v => v.weight).sum

/-- Total summed weight, `big_score + small_score`. -/
noncomputable def totalScore (items : List Scored) : ℝ :=
  bigScore items + smallScore items

/-- Comparator for the reasons list: descending weight
(`votes.sort(key=..., reverse=True)`). -/
noncomputable def weightGe (a b : VoteRec) : Bool :=
  decide (b.weight ≤ a.weight)

/-- Reasons trail: the votes sorted descending by weight, first 5 kept. -/
noncomputable def reasonsOf (votes : List VoteRec) : List VoteRec :=
  (votes.mergeSort weightGe).take 5

/-- Decision record returned by `analyze_big_small`. -/
structure Decision where
  decision : Option Side
  confidence : ℝ
  reasons : List VoteRec

/-- Embedding of `analyze_big_small`. -/
noncomputable def analyze_big_small (items : List Scored) : Decision :=
  if items.isEmpty then { decision := none, confidence := 0, reasons := [] }
  else if totalScore items ≤ 0 then { decision := none, confidence := 0, reasons := [] }
  else if smallScore items ≤ bigScore items then
    { decision := some Side.Big
      confidence := bigScore items / totalScore items
      reasons := reasonsOf (mkVotes items) }
  else
    { decision := some Side.Small
      confidence := smallScore items / totalScore items
      reasons := reasonsOf (mkVotes items) }

/-- Score formula as worded by the specification: with `hit = hitRate or 0.0`
and `trd = max(trade or 0.0, 0.0)`, `score = hit * (1 + ln(1 + trd))`,
reading the null-coalescing `or` as `Option.getD`. -/
noncomputable def scoreSpec (hitRate trade : Option ℝ) : ℝ :=
  hitRate.getD 0 * (1 + Real.log (1 + max (trade.getD 0) 0))

/-- Weight formula as worded by the specification:
`weight = max(hit_rate or 0, 0) ^ 1.15 * (1 + ln(1 + max(trade or 0, 0)))`,
reading the null-coalescing `or` as `Option.getD`. -/
noncomputable def weightSpec (hr trd : Option ℝ) : ℝ :=
  (max (hr.getD 0) 0) ^ (1.15 : ℝ) * (1 + Real.log (1 + max (trd.getD 0) 0))

/-! ### Helper lemmas -/

/-- With default `0`, the Python `or` on an optional float coincides with
`Option.getD`, because replacing a falsy `0.0` by the default `0.0` changes
nothing. -/
theorem pyOrR_zero (x : Option ℝ) : pyOrR x 0 = x.getD 0 := by
  cases x with
  | none => rfl
  | some v =>
    by_cases h : v = 0
    · simp [pyOrR, h]
    · simp [pyOrR, h]

/-- `v if v else None` never produces `some 0`. -/
theorem optFloat_ne_some_zero (v : ℝ) : optFloat v ≠ some 0 := by
  unfold optFloat
  by_cases h : v = 0
  · simp [h]
  · simp [h]

/-- On values that are not `some 0`, the Python `or` with default `-1.0`
coincides with `Option.getD`. -/
theorem pyOrR_neg_one {x : Option ℝ} (h : x ≠ some 0) :
    pyOrR x (-1) = x.getD (-1) := by
  cases x with
  | none => rfl
  | some v =>
    have hv : v ≠ 0 := fun e => h (by rw [e])
    simp [pyOrR, hv]

/-- The aggregator's weight formula agrees with the specification's wording
of it. -/
theorem voteWeight_eq_weightSpec (hr trd : Option ℝ) :
    voteWeight hr trd = weightSpec hr trd := by
  unfold voteWeight weightSpec
  rw [pyOrR_zero, pyOrR_zero]

/-- Vote weights are never negative. -/
theorem voteWeight_nonneg (hr trd : Option ℝ) : 0 ≤ voteWeight hr trd := by
  unfold voteWeight
  apply mul_nonneg
  · exact Real.rpow_nonneg (le_max_right _ _) _
  · have h1 : (0:ℝ) ≤ max (pyOrR trd 0) 0 := le_max_right _ _
    have h2 : (0:ℝ) ≤ Real.log (1 + max (pyOrR trd 0) 0) :=
      Real.log_nonneg (by linarith)
    linarith

/-- Every collected vote comes from some input record: its side is that
record's classification and its weight is the weight formula on that
record's fields. -/
theorem mem_mkVotes {items : List Scored} {v : VoteRec} (h : v ∈ mkVotes items) :
    ∃ it ∈ items, vote it.plan = some v.side ∧
      v.weight = voteWeight it.hit_rate it.trade := by
  rw [mkVotes, List.mem_filterMap] at h
  obtain ⟨it, hit, hv⟩ := h
  refine ⟨it, hit, ?_⟩
  cases hvote : vote it.plan with
  | none => rw [hvote] at hv; simp at hv
  | some s =>
    rw [hvote] at hv
    simp only [Option.some.injEq] at hv
    subst hv
    exact ⟨rfl, rfl⟩

/-- Weight of any collected vote is nonnegative. -/
theorem weight_nonneg_of_mem {items : List Scored} {v : VoteRec}
    (h : v ∈ mkVotes items) : 0 ≤ v.weight := by
  obtain ⟨it, _, _, hw⟩ := mem_mkVotes h
  rw [hw]
  exact voteWeight_nonneg _ _

/-- The Big side's summed weight is nonnegative. -/
theorem bigScore_nonneg (items : List Scored) : 0 ≤ bigScore items := by
  apply List.sum_nonneg
  intro x hx
  rw [List.mem_map] at hx
  obtain ⟨v, hv, rfl⟩ := hx
  exact weight_nonneg_of_mem (List.mem_of_mem_filter hv)

/-- The Small side's summed weight is nonnegative. -/
theorem smallScore_nonneg (items : List Scored) : 0 ≤ smallScore items := by
  apply List.sum_nonneg
  intro x hx
  rw [List.mem_map] at hx
  obtain ⟨v, hv, rfl⟩ := hx
  exact weight_nonneg_of_mem (List.mem_of_mem_filter hv)

/-- With no votes, both sides sum to zero. -/
theorem totalScore_of_votes_nil {items : List Scored} (h : mkVotes items = []) :
    totalScore items = 0 := by
  simp [totalScore, bigScore, smallScore, h]

/-- Total score of the empty input is zero. -/
theorem totalScore_nil : totalScore [] = 0 :=
  totalScore_of_votes_nil rfl

/-- The lexicographic tuple order is total. -/
theorem lex3_total (p q : ℝ × ℝ × ℝ) : lex3 p q ∨ lex3 q p := by
  unfold lex3
  rcases lt_trichotomy p.1 q.1 with h | h | h
  · exact Or.inl (Or.inl h)
  · rcases lt_trichotomy p.2.1 q.2.1 with h2 | h2 | h2
    · exact Or.inl (Or.inr ⟨h, Or.inl h2⟩)
    · rcases le_total p.2.2 q.2.2 with h3 | h3
      · exact Or.inl (Or.inr ⟨h, Or.inr ⟨h2, h3⟩⟩)
      · exact Or.inr (Or.inr ⟨h.symm, Or.inr ⟨h2.symm, h3⟩⟩)
    · exact Or.inr (Or.inr ⟨h.symm, Or.inl h2⟩)
  · exact Or.inr (Or.inl h)

/-- The lexicographic tuple order is transitive. -/
theorem lex3_trans {p q r : ℝ × ℝ × ℝ} (h1 : lex3 p q) (h2 : lex3 q r) :
    lex3 p r := by
  unfold lex3 at h1 h2 ⊢
  rcases h1 with h1 | ⟨e1, h1⟩
  · rcases h2 with h2 | ⟨e2, _⟩
    · exact Or.inl (h1.trans h2)
    · exact Or.inl (by linarith [e2.le, e2.ge])
  · rcases h2 with h2 | ⟨e2, h2⟩
    · exact Or.inl (by linarith [e1.le, e1.ge])
    · refine Or.inr ⟨e1.trans e2, ?_⟩
      rcases h1 with h1 | ⟨f1, h1⟩
      · rcases h2 with h2 | ⟨f2, _⟩
        · exact Or.inl (h1.trans h2)
        · exact Or.inl (by linarith [f2.le, f2.ge])
      · rcases h2 with h2 | ⟨f2, h2⟩
        · exact Or.inl (by linarith [f1.le, f1.ge])
        · exact Or.inr ⟨f1.trans f2, h1.trans h2⟩

/-- Unfolding of the Boolean comparator. -/
theorem keyLe_iff {a b : Scored} : keyLe a b = true ↔ lex3 (sortKey b) (sortKey a) := by
  unfold keyLe
  exact @decide_eq_true_iff _ (Classical.propDecidable _)

/-- The comparator is total. -/
theorem keyLe_total (a b : Scored) : keyLe a b || keyLe b a := by
  rcases lex3_total (sortKey b) (sortKey a) with h | h
  · have hl : keyLe a b = true := keyLe_iff.mpr h
    simp [hl]
  · have hl : keyLe b a = true := keyLe_iff.mpr h
    simp [hl]

/-- The comparator is transitive. -/
theorem keyLe_trans (a b c : Scored) (h1 : keyLe a b) (h2 : keyLe b c) :
    keyLe a c := by
  have g1 := keyLe_iff.mp h1
  have g2 := keyLe_iff.mp h2
  exact keyLe_iff.mpr (lex3_trans g2 g1)

/-- Every ranked record is the scored image of some input candidate. -/
theorem mem_scoreItems {items : List Candidate} {x : Scored}
    (h : x ∈ scoreItems items) : ∃ r ∈ items, x = scoreRecord r := by
  unfold scoreItems at h
  have h1 := List.mem_of_mem_take h
  rw [List.mem_mergeSort, List.mem_map] at h1
  obtain ⟨r, hr, rfl⟩ := h1
  exact ⟨r, hr, rfl⟩

/-- The ranked output is pairwise ordered by the comparator. -/
theorem scoreItems_pairwise_keyLe (items : List Candidate) :
    (scoreItems items).Pairwise fun a b => keyLe a b = true := by
  unfold scoreItems
  apply List.Pairwise.sublist (List.take_sublist _ _)
  exact List.sorted_mergeSort keyLe_trans keyLe_total (items.map scoreRecord)

/-- Ranked records never carry `some 0` in their optional fields (the code
stores `None` for a zero value). -/
theorem scoreItems_good {items : List Candidate} {x : Scored}
    (h : x ∈ scoreItems items) : x.hit_rate ≠ some 0 ∧ x.trade ≠ some 0 := by
  obtain ⟨r, _, rfl⟩ := mem_scoreItems h
  exact ⟨optFloat_ne_some_zero _, optFloat_ne_some_zero _⟩

/-- Ordering contract stated by the specification for adjacent ranked
records: scores descend; on equal scores, hit rates (null as `-1`) descend;
on equal scores and hit rates, trades (null as `-1`) descend. -/
def rankLe (a b : Scored) : Prop :=
  b.score ≤ a.score ∧
  (a.score = b.score → b.hit_rate.getD (-1) ≤ a.hit_rate.getD (-1)) ∧
  (a.score = b.score → a.hit_rate.getD (-1) = b.hit_rate.getD (-1) →
    b.trade.getD (-1) ≤ a.trade.getD (-1))

/-- On records without `some 0` fields, the sorting comparator implies the
specification's ordering contract. -/
theorem rankLe_of_keyLe {a b : Scored}
    (ha : a.hit_rate ≠ some 0 ∧ a.trade ≠ some 0)
    (hb : b.hit_rate ≠ some 0 ∧ b.trade ≠ some 0)
    (h : keyLe a b = true) : rankLe a b := by
  rw [keyLe_iff] at h
  unfold lex3 sortKey at h
  simp only at h
  rw [pyOrR_neg_one ha.1, pyOrR_neg_one ha.2, pyOrR_neg_one hb.1,
    pyOrR_neg_one hb.2] at h
  refine ⟨?_, ?_, ?_⟩
  · rcases h with h | ⟨e, _⟩
    · exact le_of_lt h
    · exact le_of_eq e
  · intro he
    rcases h with h | ⟨e, h⟩
    · exact absurd he (by intro he2; rw [he2] at h; exact lt_irrefl _ h)
    · rcases h with h | ⟨e2, _⟩
      · exact le_of_lt h
      · exact le_of_eq e2
  · intro he hh
    rcases h with h | ⟨e, h⟩
    · exact absurd he (by intro he2; rw [he2] at h; exact lt_irrefl _ h)
    · rcases h with h | ⟨e2, h3⟩
      · exact absurd hh (by intro hh2; rw [hh2] at h; exact lt_irrefl _ h)
      · exact h3

/-- Nonnegative-or-null condition on an optional float field. -/
def nonnegOpt (x : Option ℝ) : Prop := ∀ v, x = some v → 0 ≤ v

/-! ### Concrete demonstration inputs -/

/-- Candidate record with hit rate 1%, no trades. -/
def demoCand : Candidate :=
  { name := [], hitRate := some 1, trade := none, plan := [], rawText := [] }

/-- Scored record with plan "big", hit rate 1, no trades. -/
def demoBig : Scored :=
  { name := [], hit_rate := some 1, trade := none, plan := bigW, score := 0 }

/-- Singleton item list for the aggregator demonstrations. -/
def demoItems : List Scored := [demoBig]

/-- Vote produced by `demoBig`. -/
noncomputable def demoVote : VoteRec :=
  { side := Side.Big, weight := voteWeight (some 1) none, name := [], plan := bigW }

/-- Weight of a record with hit rate 1 and no trades is exactly 1. -/
theorem voteWeight_one : voteWeight (some 1) none = 1 := by
  have h1 : pyOrR (some 1) 0 = 1 := by simp [pyOrR]
  have h2 : pyOrR (none : Option ℝ) 0 = 0 := rfl
  unfold voteWeight
  rw [h1, h2]
  rw [max_eq_left zero_le_one, max_self]
  norm_num [Real.log_one, Real.one_rpow]

/-- Vote collection on the demonstration list. -/
theorem mkVotes_demo : mkVotes demoItems = [demoVote] := by
  have hv : vote bigW = some Side.Big := by decide
  simp [mkVotes, demoItems, demoBig, demoVote, hv]

/-- Big side's score on the demonstration list. -/
theorem bigScore_demo : bigScore demoItems = 1 := by
  have hbeq : (Side.Big == Side.Big) = true := rfl
  rw [bigScore, mkVotes_demo]
  simp [demoVote, voteWeight_one, List.filter_cons, hbeq]

/-- Small side's score on the demonstration list. -/
theorem smallScore_demo : smallScore demoItems = 0 := by
  have hbeq : (Side.Big == Side.Small) = false := rfl
  rw [smallScore, mkVotes_demo]
  simp [demoVote, List.filter_cons, hbeq]

/-- Total score on the demonstration list. -/
theorem totalScore_demo : totalScore demoItems = 1 := by
  rw [totalScore, bigScore_demo, smallScore_demo]
  norm_num

/-- Full evaluation of the aggregator on the demonstration list. -/
theorem analyze_demo :
    analyze_big_small demoItems
      = { decision := some Side.Big, confidence := 1, reasons := [demoVote] } := by
  have he : demoItems.isEmpty = false := rfl
  have hr : reasonsOf (mkVotes demoItems) = [demoVote] := by
    rw [mkVotes_demo]
    unfold reasonsOf
    rw [List.mergeSort_singleton]
    rfl
  unfold analyze_big_small
  rw [he, totalScore_demo, bigScore_demo, smallScore_demo, hr]
  norm_num

/-! ### Claims -/

/-- Claim C1, counterexample to the original statement: the plan text
"big small up" contains both the substring "big" and the substring "small",
yet the classifier does not abstain on it — the synonym rule still fires and
it is classified Big. -/
theorem claim_C1_counterexample :
    hasSub bigW ("big small up".data) = true ∧
    hasSub smallW ("big small up".data) = true ∧
    vote ("big small up".data) = some Side.Big := by
  exact ⟨by decide, by decide, by decide⟩

/-- Claim C1 (amended): for a plan text whose lower-cased form contains both
"big" and "small", the big/small word rules both fail; if the text
additionally triggers no digit rule and no synonym rule, the classifier
abstains (as the spec's example "Big to Small swing" does). -/
theorem claim_C1 (p : Str)
    (hb : hasSub bigW (lowerStr p) = true)
    (hs : hasSub smallW (lowerStr p) = true)
    (hdHi : digitsHi.any (fun c => (lowerStr p).contains c) = false)
    (hdLo : digitsLo.any (fun c => (lowerStr p).contains c) = false)
    (hhigh : hasSub highW (lowerStr p) = false)
    (hup : hasSub upW (lowerStr p) = false)
    (hlow : hasSub lowW (lowerStr p) = false)
    (hdown : hasSub downW (lowerStr p) = false) :
    vote p = none := by
  simp only [vote, hb, hs, hdHi, hdLo, hhigh, hup, hlow, hdown, Bool.not_true,
    Bool.not_false, Bool.and_false, Bool.false_and, Bool.and_true, Bool.true_and,
    Bool.or_false, Bool.false_or, Bool.or_self, Bool.false_eq_true, if_false]

/-- Claim C1 witness: the spec's own example "Big to Small swing"
abstains. -/
theorem claim_C1_witness : vote ("Big to Small swing".data) = none :=
  claim_C1 _ (by decide) (by decide) (by decide) (by decide)
    (by decide) (by decide) (by decide) (by decide)

/-- Claim C2: when the summed vote weights are positive, the decision is Big
exactly on `big_score >= small_score` (Small otherwise), the confidence is
the winning score over the total and lies in `(0, 1]`, and an exact tie
resolves to Big with confidence exactly one half. -/
theorem claim_C2 (items : List Scored) (h : 0 < totalScore items) :
    ((smallScore items ≤ bigScore items →
        (analyze_big_small items).decision = some Side.Big ∧
        (analyze_big_small items).confidence = bigScore items / totalScore items) ∧
      (bigScore items < smallScore items →
        (analyze_big_small items).decision = some Side.Small ∧
        (analyze_big_small items).confidence = smallScore items / totalScore items)) ∧
    (0 < (analyze_big_small items).confidence ∧
      (analyze_big_small items).confidence ≤ 1) ∧
    (bigScore items = smallScore items →
      (analyze_big_small items).decision = some Side.Big ∧
      (analyze_big_small items).confidence = 1 / 2) := by
  cases items with
  | nil => rw [totalScore_nil] at h; exact absurd h (by norm_num)
  | cons a l =>
    have he : (a :: l).isEmpty = false := rfl
    have hb0 : 0 ≤ bigScore (a :: l) := bigScore_nonneg _
    have hs0 : 0 ≤ smallScore (a :: l) := smallScore_nonneg _
    have ht : totalScore (a :: l) = bigScore (a :: l) + smallScore (a :: l) := rfl
    unfold analyze_big_small
    rw [he]
    simp only [Bool.false_eq_true, if_false]
    rw [if_neg (not_le.mpr h)]
    by_cases hc : smallScore (a :: l) ≤ bigScore (a :: l)
    · rw [if_pos hc]
      have hbpos : 0 < bigScore (a :: l) := by
        rw [ht] at h; linarith
      refine ⟨⟨fun _ => ⟨rfl, rfl⟩, fun hlt => absurd hlt (not_lt.mpr hc)⟩, ⟨?_, ?_⟩, ?_⟩
      · exact div_pos hbpos h
      · rw [div_le_one h, ht]; linarith
      · intro htie
        refine ⟨rfl, ?_⟩
        show bigScore (a :: l) / totalScore (a :: l) = 1 / 2
        rw [ht, ← htie]
        rw [div_eq_iff (by rw [ht, ← htie] at h; linarith : bigScore (a :: l) + bigScore (a :: l) ≠ 0)]
        ring
    · rw [if_neg hc]
      push_neg at hc
      have hspos : 0 < smallScore (a :: l) := lt_of_le_of_lt hb0 hc
      refine ⟨⟨fun hle => absurd hc (not_lt.mpr hle), fun _ => ⟨rfl, rfl⟩⟩, ⟨?_, ?_⟩, ?_⟩
      · exact div_pos hspos h
      · rw [div_le_one h, ht]; linarith
      · intro htie
        rw [htie] at hc
        exact absurd hc (lt_irrefl _)

/-- Claim C2 witness: a singleton list with one Big vote of weight 1. -/
theorem claim_C2_witness :
    0 < totalScore demoItems ∧
    (analyze_big_small demoItems).decision = some Side.Big ∧
    (analyze_big_small demoItems).confidence = bigScore demoItems / totalScore demoItems := by
  have hpos : 0 < totalScore demoItems := by rw [totalScore_demo]; norm_num
  have hle : smallScore demoItems ≤ bigScore demoItems := by
    rw [smallScore_demo, bigScore_demo]; norm_num
  obtain ⟨⟨h1, _⟩, _, _⟩ := claim_C2 demoItems hpos
  exact ⟨hpos, (h1 hle).1, (h1 hle).2⟩

/-- Claim C3: the empty list yields the terminal no-signal value, and in
general the decision is null exactly when no votes were cast or their summed
weight is not positive; a null decision always comes with confidence 0 and
empty reasons, as a returned value. -/
theorem claim_C3 :
    analyze_big_small [] = { decision := none, confidence := 0, reasons := [] } ∧
    ∀ items : List Scored,
      ((analyze_big_small items).decision = none ↔
        mkVotes items = [] ∨ totalScore items ≤ 0) ∧
      ((analyze_big_small items).decision = none →
        (analyze_big_small items).confidence = 0 ∧
        (analyze_big_small items).reasons = []) := by
  refine ⟨rfl, ?_⟩
  intro items
  cases items with
  | nil =>
    refine ⟨⟨fun _ => Or.inl rfl, fun _ => rfl⟩, fun _ => ⟨rfl, rfl⟩⟩
  | cons a l =>
    have he : (a :: l).isEmpty = false := rfl
    unfold analyze_big_small
    rw [he]
    simp only [Bool.false_eq_true, if_false]
    by_cases ht : totalScore (a :: l) ≤ 0
    · rw [if_pos ht]
      exact ⟨⟨fun _ => Or.inr ht, fun _ => rfl⟩, fun _ => ⟨rfl, rfl⟩⟩
    · rw [if_neg ht]
      have hright : ¬(mkVotes (a :: l) = [] ∨ totalScore (a :: l) ≤ 0) := by
        rintro (hv | hle)
        · exact ht (le_of_eq (totalScore_of_votes_nil hv))
        · exact ht hle
      by_cases hc : smallScore (a :: l) ≤ bigScore (a :: l)
      · rw [if_pos hc]
        exact ⟨⟨fun habs => absurd habs (by simp), fun hr => absurd hr hright⟩,
          fun habs => absurd habs (by simp)⟩
      · rw [if_neg hc]
        exact ⟨⟨fun habs => absurd habs (by simp), fun hr => absurd hr hright⟩,
          fun habs => absurd habs (by simp)⟩

/-- Claim C4: the Ranker's output is sorted — for any adjacent pair `(a, b)`,
`a.score >= b.score`; on equal scores, hit rates (null read as `-1`) are
non-increasing; on equal scores and hit rates, trades (null read as `-1`)
are non-increasing. -/
theorem claim_C4 (items : List Candidate) :
    List.Chain' rankLe (scoreItems items) := by
  apply List.Pairwise.chain'
  apply List.Pairwise.imp_of_mem ?_ (scoreItems_pairwise_keyLe items)
  intro a b ha hb hk
  exact rankLe_of_keyLe (scoreItems_good ha) (scoreItems_good hb) hk

/-- Claim C5: the Ranker's output length is at most `min 20 (input length)`,
never exceeds the input length, and an input shorter than 20 is returned in
full. -/
theorem claim_C5 (items : List Candidate) :
    (scoreItems items).length ≤ min 20 items.length ∧
    (scoreItems items).length ≤ items.length ∧
    (items.length < 20 → (scoreItems items).length = items.length) := by
  have hlen : (scoreItems items).length = min 20 items.length := by
    unfold scoreItems
    rw [List.length_take, List.length_mergeSort, List.length_map]
  refine ⟨le_of_eq hlen, ?_, ?_⟩
  · rw [hlen]; omega
  · intro h; rw [hlen]; omega

/-- Claim C5 witness: the inner implication instantiated on the empty
input. -/
theorem claim_C5_witness :
    (scoreItems ([] : List Candidate)).length = ([] : List Candidate).length :=
  (claim_C5 []).2.2 (by norm_num)

/-- Claim C6: each record's score is `hit * (1 + ln (1 + trd))` with
`hit = hitRate or 0` and `trd = max (trade or 0) 0`, and at `trd = 0` the
multiplier is exactly 1 (the score collapses to `hit`). -/
theorem claim_C6 (r : Candidate) :
    (scoreRecord r).score = scoreSpec r.hitRate r.trade ∧
    (max (r.trade.getD 0) 0 = 0 →
      (scoreRecord r).score = r.hitRate.getD 0) := by
  have h1 : (scoreRecord r).score
      = pyOrR r.hitRate 0 * (1 + Real.log (1 + max (pyOrR r.trade 0) 0)) := rfl
  constructor
  · rw [h1, pyOrR_zero, pyOrR_zero]
    rfl
  · intro h
    rw [h1, pyOrR_zero, pyOrR_zero, h]
    norm_num [Real.log_one]

/-- Claim C6 witness: a record with no trades scores exactly its hit
rate. -/
theorem claim_C6_witness :
    (scoreRecord demoCand).score = demoCand.hitRate.getD 0 :=
  (claim_C6 demoCand).2 (by simp [demoCand])

/-- Claim C7: all scores produced by the Ranker are nonnegative for inputs
whose optional numeric fields are nonnegative or null. -/
theorem claim_C7 (items : List Candidate)
    (h : ∀ r ∈ items, nonnegOpt r.hitRate ∧ nonnegOpt r.trade) :
    ∀ s ∈ scoreItems items, 0 ≤ s.score := by
  intro s hs
  obtain ⟨r, hr, rfl⟩ := mem_scoreItems hs
  have hhit : 0 ≤ pyOrR r.hitRate 0 := by
    cases hx : r.hitRate with
    | none => simp [pyOrR]
    | some v =>
      by_cases hv : v = 0
      · simp [pyOrR, hv]
      · have := (h r hr).1 v hx
        simpa [pyOrR, hv] using this
  have hmul : (0:ℝ) ≤ 1 + Real.log (1 + max (pyOrR r.trade 0) 0) := by
    have h0 : (0:ℝ) ≤ max (pyOrR r.trade 0) 0 := le_max_right _ _
    have h2 := Real.log_nonneg (by linarith : (1:ℝ) ≤ 1 + max (pyOrR r.trade 0) 0)
    linarith
  show 0 ≤ pyOrR r.hitRate 0 * (1 + Real.log (1 + max (pyOrR r.trade 0) 0))
  exact mul_nonneg hhit hmul

/-- Claim C7 witness: a singleton candidate list with nonnegative fields. -/
theorem claim_C7_witness :
    (∀ r ∈ [demoCand], nonnegOpt r.hitRate ∧ nonnegOpt r.trade) ∧
    ∀ s ∈ scoreItems [demoCand], 0 ≤ s.score := by
  have h : ∀ r ∈ [demoCand], nonnegOpt r.hitRate ∧ nonnegOpt r.trade := by
    intro r hr
    rw [List.mem_singleton] at hr
    subst hr
    constructor
    · intro v hv
      simp [demoCand] at hv
      rw [← hv]
      norm_num
    · intro v hv
      simp [demoCand] at hv
  exact ⟨h, claim_C7 [demoCand] h⟩

/-- Claim C8: when neither word rule fires, a plan whose digits include one
of 6–9 and none of 0–5 classifies Big, the mirror case classifies Small,
and concretely "6-9 range" is Big, "0-5 range" is Small, and the mixed
"3-7 range" abstains. -/
theorem claim_C8 :
    (∀ p : Str,
      (hasSub bigW (lowerStr p) && !hasSub smallW (lowerStr p)) = false →
      (hasSub smallW (lowerStr p) && !hasSub bigW (lowerStr p)) = false →
      digitsHi.any (fun c => (lowerStr p).contains c) = true →
      digitsLo.any (fun c => (lowerStr p).contains c) = false →
      vote p = some Side.Big) ∧
    (∀ p : Str,
      (hasSub bigW (lowerStr p) && !hasSub smallW (lowerStr p)) = false →
      (hasSub smallW (lowerStr p) && !hasSub bigW (lowerStr p)) = false →
      digitsLo.any (fun c => (lowerStr p).contains c) = true →
      digitsHi.any (fun c => (lowerStr p).contains c) = false →
      vote p = some Side.Small) ∧
    vote ("6-9 range".data) = some Side.Big ∧
    vote ("0-5 range".data) = some Side.Small ∧
    vote ("3-7 range".data) = none := by
  refine ⟨?_, ?_, by decide, by decide, by decide⟩
  · intro p h1 h2 h3 h4
    simp only [vote, h1, h2, h3, h4, Bool.not_true, Bool.not_false, Bool.and_false,
      Bool.false_and, Bool.and_true, Bool.true_and, Bool.and_self, Bool.false_eq_true,
      if_false, eq_self_iff_true, if_true]
  · intro p h1 h2 h3 h4
    simp only [vote, h1, h2, h3, h4, Bool.not_true, Bool.not_false, Bool.and_false,
      Bool.false_and, Bool.and_true, Bool.true_and, Bool.and_self, Bool.false_eq_true,
      if_false, eq_self_iff_true, if_true]

/-- Claim C8 witness: the digit rules instantiated on "79" and "13". -/
theorem claim_C8_witness :
    vote ("79".data) = some Side.Big ∧ vote ("13".data) = some Side.Small :=
  ⟨claim_C8.1 _ (by decide) (by decide) (by decide) (by decide),
   claim_C8.2.1 _ (by decide) (by decide) (by decide) (by decide)⟩

/-- Claim C9: every collected vote's weight is the weight formula
`max(hit_rate or 0, 0) ^ 1.15 * (1 + ln (1 + max (trade or 0) 0))` applied
to the originating record's fields, and is nonnegative. -/
theorem claim_C9 (items : List Scored) (v : VoteRec) (h : v ∈ mkVotes items) :
    (∃ it ∈ items, vote it.plan = some v.side ∧
      v.weight = weightSpec it.hit_rate it.trade) ∧
    0 ≤ v.weight := by
  obtain ⟨it, hit, hv, hw⟩ := mem_mkVotes h
  refine ⟨⟨it, hit, hv, by rw [hw, voteWeight_eq_weightSpec]⟩, ?_⟩
  rw [hw]
  exact voteWeight_nonneg _ _

/-- Claim C9 witness: the demonstration vote. -/
theorem claim_C9_witness :
    demoVote ∈ mkVotes demoItems ∧ 0 ≤ demoVote.weight := by
  have hm : demoVote ∈ mkVotes demoItems := by
    rw [mkVotes_demo]
    exact List.mem_singleton_self _
  exact ⟨hm, (claim_C9 demoItems demoVote hm).2⟩

/-- Claim C10: whenever the decision is non-null, the confidence is at least
one half — the winning side holds at least half of the total weight. -/
theorem claim_C10 (items : List Scored)
    (h : (analyze_big_small items).decision ≠ none) :
    1 / 2 ≤ (analyze_big_small items).confidence := by
  cases items with
  | nil => exact absurd rfl h
  | cons a l =>
    have he : (a :: l).isEmpty = false := rfl
    have hb0 : 0 ≤ bigScore (a :: l) := bigScore_nonneg _
    have hs0 : 0 ≤ smallScore (a :: l) := smallScore_nonneg _
    have hteq : totalScore (a :: l) = bigScore (a :: l) + smallScore (a :: l) := rfl
    unfold analyze_big_small at h ⊢
    rw [he] at h ⊢
    simp only [Bool.false_eq_true, if_false] at h ⊢
    by_cases ht : totalScore (a :: l) ≤ 0
    · rw [if_pos ht] at h
      exact absurd rfl h
    · rw [if_neg ht] at h ⊢
      push_neg at ht
      by_cases hc : smallScore (a :: l) ≤ bigScore (a :: l)
      · rw [if_pos hc]
        show 1 / 2 ≤ bigScore (a :: l) / totalScore (a :: l)
        rw [le_div_iff₀ ht, hteq]
        linarith
      · rw [if_neg hc]
        push_neg at hc
        show 1 / 2 ≤ smallScore (a :: l) / totalScore (a :: l)
        rw [le_div_iff₀ ht, hteq]
        linarith

/-- Claim C10 witness: the demonstration list decides Big with confidence
1. -/
theorem claim_C10_witness :
    (analyze_big_small demoItems).decision ≠ none ∧
    1 / 2 ≤ (analyze_big_small demoItems).confidence := by
  have hd : (analyze_big_small demoItems).decision = some Side.Big := by
    rw [analyze_demo]
  refine ⟨by rw [hd]; simp, claim_C10 demoItems (by rw [hd]; simp)⟩

end Hgzy
